import Mathlib

/-!
Verification of the Recall streaming-metric computation
(`torchrec/metrics/recall.py`).

Tensors are embedded shallowly: a per-task vector (one number per task) is a
`List ℚ`, and a batch tensor of shape `[n_tasks, batch_size]` is a
`List (List ℚ)` (one row per task).  Elementwise torch operations become
`List.zipWith` / `List.map`, and `torch.sum(_, dim=-1)` becomes a row-wise
`List.sum`.  Rationals stand in for the double-precision values; division by
zero in ℚ yields 0, and the code under verification never divides by zero
anyway thanks to its explicit `torch.where` zero-guard.
-/

/-- A `[n_tasks, batch_size]` tensor: one row of sample values per task. -/
abbrev Tensor2 : Type := List (List ℚ)

/-- A per-task vector (`[n_tasks]` tensor). -/
abbrev Vec : Type := List ℚ

/-- Elementwise product of two 2-d tensors (`a * b` in torch). -/
def tensorMul (a b : Tensor2) : Tensor2 :=
  List.zipWith (fun ra rb => List.zipWith (· * ·) ra rb) a b

/-- Elementwise `predictions >= threshold`, as the 0/1 tensor torch produces
when the comparison result is multiplied with a numeric tensor. -/
def tensorGe (p : Tensor2) (threshold : ℚ) : Tensor2 :=
  List.map (fun r => List.map (fun x => if threshold ≤ x then (1 : ℚ) else 0) r) p

/-- Elementwise `predictions <= threshold`, as a 0/1 tensor. -/
def tensorLe (p : Tensor2) (threshold : ℚ) : Tensor2 :=
  List.map (fun r => List.map (fun x => if x ≤ threshold then (1 : ℚ) else 0) r) p

/-- `torch.sum(t, dim=-1)`: sum each task row. -/
def sumLastDim (t : Tensor2) : Vec :=
  List.map (fun r => r.sum) t

/-- `torch.ones_like(p)`. -/
def onesLike (p : Tensor2) : Tensor2 :=
  List.map (fun r => List.map (fun _ => (1 : ℚ)) r) p

/-- Elementwise sum of two per-task vectors (`a + b`, also the in-place
`state += state_value` of `update`). -/
def vecAdd (a b : Vec) : Vec :=
  List.zipWith (· + ·) a b

/-- `predictions.shape[-1]`: the size of the last dimension, i.e. the common
row length of a `[n_tasks, batch_size]` tensor. -/
def shapeLast (t : Tensor2) : Nat :=
  (t.headD []).length

/-- Row `i` of a 2-d tensor (empty when out of range). -/
def row (t : Tensor2) (i : Nat) : List ℚ :=
  t.getD i []

/-- `compute_recall` from `recall.py`:
`torch.where(tp + fn == 0.0, 0.0, tp / (tp + fn))`, elementwise over tasks. -/
def compute_recall (num_true_positives num_false_negitives : Vec) : Vec :=
  List.zipWith
    (fun n d => if n + d = 0 then (0 : ℚ) else n / (n + d))
    num_true_positives num_false_negitives

/-- `compute_true_pos_sum` from `recall.py`:
`torch.sum(weights * ((predictions >= threshold) * labels), dim=-1)`.
(The `.double()` dtype cast is the identity in this ℚ embedding.) -/
def compute_true_pos_sum (labels predictions weights : Tensor2)
    (threshold : ℚ) : Vec :=
  sumLastDim (tensorMul weights (tensorMul (tensorGe predictions threshold) labels))

/-- `compute_false_neg_sum` from `recall.py`:
`torch.sum(weights * ((predictions <= threshold) * labels), dim=-1)`. -/
def compute_false_neg_sum (labels predictions weights : Tensor2)
    (threshold : ℚ) : Vec :=
  sumLastDim (tensorMul weights (tensorMul (tensorLe predictions threshold) labels))

/-- The dict returned by `get_recall_states`. -/
structure RecallStates where
  true_pos_sum : Vec
  false_neg_sum : Vec
deriving DecidableEq, Repr

/-- `get_recall_states` from `recall.py`: defaults `weights` to
`torch.ones_like(predictions)` and builds both per-task state deltas. -/
def get_recall_states (labels predictions : Tensor2) (weights : Option Tensor2)
    (threshold : ℚ) : RecallStates :=
  let w := match weights with
    | none => onesLike predictions
    | some w => w
  { true_pos_sum := compute_true_pos_sum labels predictions w threshold
    false_neg_sum := compute_false_neg_sum labels predictions w threshold }

/-- C1: `compute_recall` is elementwise `N/(N+D)` with a per-task zero-guard. -/
theorem claim1_compute_recall_elementwise (N D : Vec) (hlen : N.length = D.length)
    (i : Nat) (hi : i < N.length) :
    (compute_recall N D).getD i 0 =
      (if N.getD i 0 + D.getD i 0 = 0 then 0
       else N.getD i 0 / (N.getD i 0 + D.getD i 0)) ∧
    (N.getD i 0 + D.getD i 0 = 0 → (compute_recall N D).getD i 0 = 0) := by
  have hiD : i < D.length := hlen ▸ hi
  have hlenr : (compute_recall N D).length = N.length := by
    simp [compute_recall, List.length_zipWith, hlen]
  have hir : i < (compute_recall N D).length := by omega
  have hval : (compute_recall N D).getD i 0 =
      (if N.getD i 0 + D.getD i 0 = 0 then 0
       else N.getD i 0 / (N.getD i 0 + D.getD i 0)) := by
    rw [List.getD_eq_getElem _ _ hir, List.getD_eq_getElem _ _ hi,
      List.getD_eq_getElem _ _ hiD]
    simp [compute_recall]
  exact ⟨hval, fun hz => by rw [hval, if_pos hz]⟩

/-- Witness for C1 at a concrete input. -/
theorem claim1_witness :
    ([(1 : ℚ), 0].length = [(1 : ℚ), 1].length) ∧ (0 < [(1 : ℚ), 0].length) ∧
    ((compute_recall [(1 : ℚ), 0] [(1 : ℚ), 1]).getD 0 0 =
      (if ([(1 : ℚ), 0].getD 0 0 + [(1 : ℚ), 1].getD 0 0 = 0) then 0
       else [(1 : ℚ), 0].getD 0 0 /
        ([(1 : ℚ), 0].getD 0 0 + [(1 : ℚ), 1].getD 0 0)) ∧
     ([(1 : ℚ), 0].getD 0 0 + [(1 : ℚ), 1].getD 0 0 = 0 →
      (compute_recall [(1 : ℚ), 0] [(1 : ℚ), 1]).getD 0 0 = 0)) :=
  ⟨by decide, by decide,
    claim1_compute_recall_elementwise [(1 : ℚ), 0] [(1 : ℚ), 1] (by decide) 0 (by decide)⟩

/-! ### The stateful metric computation

`RecallMetricComputation` stores two lifetime accumulators (declared in
`__init__` as zero vectors of length `n_tasks`) and, for each, a window
buffer.  The window buffer lives in the `RecMetricComputation` base class,
which is not part of the sources here; it is modelled from the spec. -/

/-- Models `RecMetricException` raised by `update` when `predictions` is
`None`. -/
inductive RecMetricException where
  | invalidInput
deriving DecidableEq, Repr

/-- Modelled from the spec: a Window Buffer entry, a pair of a per-batch
contribution vector and its sample count (spec section 4.1). -/
structure WindowEntry where
  contribution : Vec
  sample_count : Nat
deriving DecidableEq, Repr

/-- Total retained sample count of a window buffer. -/
def totalCount (buf : List WindowEntry) : Nat :=
  (buf.map (fun e => e.sample_count)).sum

/-- Modelled from the spec: eviction loop of the Window Buffer — while the
total retained sample count exceeds the window size, remove the oldest
entry, but never the sole remaining (newest) one (spec section 4.1). -/
def evictOld (window_size : Nat) : List WindowEntry → List WindowEntry
  | [] => []
  | e :: rest =>
    if window_size < totalCount (e :: rest) ∧ rest ≠ [] then evictOld window_size rest
    else e :: rest

/-- Modelled from the spec: `append` on the Window Buffer — entries with a
non-positive sample count are rejected (no-op); otherwise the entry is
appended and old entries are evicted (spec section 4.1). -/
def windowAppend (window_size : Nat) (buf : List WindowEntry) (c : Vec)
    (n : Nat) : List WindowEntry :=
  if n = 0 then buf
  else evictOld window_size (buf ++ [WindowEntry.mk c n])

/-- Modelled from the spec: the windowed sum read by `get_window_state` — the
sum of all retained contributions, a zero vector when the buffer is empty
(spec sections 4.1, 4.2). -/
def get_window_state (n_tasks : Nat) (buf : List WindowEntry) : Vec :=
  buf.foldl (fun a e => vecAdd a e.contribution) (List.replicate n_tasks 0)

/-- The state owned by one `RecallMetricComputation`: the two lifetime
accumulators declared in `__init__`, their window buffers, and the
construction-time configuration. -/
structure RecallState where
  n_tasks : Nat
  window_size : Nat
  threshold : ℚ
  true_pos_sum : Vec
  false_neg_sum : Vec
  window_true_pos : List WindowEntry
  window_false_neg : List WindowEntry
deriving DecidableEq, Repr

/-- `RecallMetricComputation.__init__`: both accumulators start as
`torch.zeros(n_tasks)` and both window buffers start empty. -/
def initState (n_tasks window_size : Nat) (threshold : ℚ) : RecallState :=
  { n_tasks := n_tasks
    window_size := window_size
    threshold := threshold
    true_pos_sum := List.replicate n_tasks 0
    false_neg_sum := List.replicate n_tasks 0
    window_true_pos := []
    window_false_neg := [] }

/-- `RecallMetricComputation.update`: raises when `predictions` is `None`
(before touching any state), otherwise adds the per-batch state deltas to
the lifetime accumulators and forwards `(delta, predictions.shape[-1])` to
the window buffers.  The returned state is the post-call state (unchanged
on the error path, exactly as in the source where the raise precedes every
mutation). -/
def update (s : RecallState) (predictions : Option Tensor2) (labels : Tensor2)
    (weights : Option Tensor2) : Except RecMetricException Unit × RecallState :=
  match predictions with
  | none => (Except.error RecMetricException.invalidInput, s)
  | some p =>
    let states := get_recall_states labels p weights s.threshold
    let num_samples := shapeLast p
    (Except.ok (),
      { s with
        true_pos_sum := vecAdd s.true_pos_sum states.true_pos_sum
        window_true_pos :=
          windowAppend s.window_size s.window_true_pos states.true_pos_sum num_samples
        false_neg_sum := vecAdd s.false_neg_sum states.false_neg_sum
        window_false_neg :=
          windowAppend s.window_size s.window_false_neg states.false_neg_sum num_samples })

/-- The metric name tag of a report (`MetricName.RECALL` here). -/
inductive MetricName where
  | recall
deriving DecidableEq, Repr

/-- The namespace tag of a report (`MetricPrefix.LIFETIME` / `WINDOW`). -/
inductive ReportKind where
  | lifetime
  | window
deriving DecidableEq, Repr

/-- One `MetricComputationReport`. -/
structure MetricComputationReport where
  name : MetricName
  kind : ReportKind
  value : Vec
deriving DecidableEq, Repr

/-- `RecallMetricComputation._compute`: reads the lifetime accumulators and
the windowed sums and produces the LIFETIME and WINDOW recall reports, in
that order; it performs no state mutation, so the state component is passed
through. -/
def _compute (s : RecallState) : List MetricComputationReport × RecallState :=
  ([{ name := MetricName.recall
      kind := ReportKind.lifetime
      value := compute_recall s.true_pos_sum s.false_neg_sum },
    { name := MetricName.recall
      kind := ReportKind.window
      value := compute_recall (get_window_state s.n_tasks s.window_true_pos)
        (get_window_state s.n_tasks s.window_false_neg) }], s)

/-- The inputs of one `update` call. -/
structure Batch where
  predictions : Option Tensor2
  labels : Tensor2
  weights : Option Tensor2
deriving DecidableEq, Repr

/-- Apply one `update` call, keeping the (unchanged) state when it raises. -/
def applyBatch (s : RecallState) (b : Batch) : RecallState :=
  (update s b.predictions b.labels b.weights).2

/-- A sequence of `update` calls, applied in order. -/
def runUpdates (s : RecallState) (bs : List Batch) : RecallState :=
  bs.foldl applyBatch s

/-- C3: `update` with `predictions = None` raises `RecMetricException` and
returns the state exactly as it was — no accumulator or window mutation. -/
theorem claim3_update_none_raises_unchanged (s : RecallState) (labels : Tensor2)
    (weights : Option Tensor2) :
    update s none labels weights = (Except.error RecMetricException.invalidInput, s) :=
  rfl

/-- C8: `_compute` is read-only — it returns the state unchanged, and two
consecutive calls produce equal report lists. -/
theorem claim8_compute_readonly_idempotent (s : RecallState) :
    (_compute s).2 = s ∧ (_compute ((_compute s).2)).1 = (_compute s).1 :=
  ⟨rfl, rfl⟩

/-- `vecAdd` can exchange its two added operands (pointwise, truncation-safe). -/
theorem vecAdd_right_comm (a b c : Vec) :
    vecAdd (vecAdd a b) c = vecAdd (vecAdd a c) b := by
  induction a generalizing b c with
  | nil => simp [vecAdd]
  | cons x xs ih =>
    cases b with
    | nil => simp [vecAdd]
    | cons y ys =>
      cases c with
      | nil => simp [vecAdd]
      | cons z zs =>
        simp only [vecAdd, List.zipWith_cons_cons]
        refine congrArg₂ List.cons (by ring) ?_
        exact ih ys zs

/-- C10: two `update` calls commute on the lifetime accumulators — each call
only adds a per-batch delta that does not depend on the current accumulator
values. -/
theorem claim10_update_commutes (s : RecallState) (b1 b2 : Batch) :
    (applyBatch (applyBatch s b1) b2).true_pos_sum =
      (applyBatch (applyBatch s b2) b1).true_pos_sum ∧
    (applyBatch (applyBatch s b1) b2).false_neg_sum =
      (applyBatch (applyBatch s b2) b1).false_neg_sum := by
  obtain ⟨p1, l1, w1⟩ := b1
  obtain ⟨p2, l2, w2⟩ := b2
  cases p1 with
  | none =>
    cases p2 with
    | none => exact ⟨rfl, rfl⟩
    | some q2 => exact ⟨rfl, rfl⟩
  | some q1 =>
    cases p2 with
    | none => exact ⟨rfl, rfl⟩
    | some q2 =>
      constructor
      · simp only [applyBatch, update]
        exact vecAdd_right_comm _ _ _
      · simp only [applyBatch, update]
        exact vecAdd_right_comm _ _ _

/-- Eviction only drops entries from the old end: the newest (last) entry of a
nonempty buffer survives `evictOld`. -/
theorem evictOld_getLast? (window_size : Nat) :
    ∀ l : List WindowEntry, l ≠ [] →
      (evictOld window_size l).getLast? = l.getLast? := by
  intro l
  induction l with
  | nil => intro h; exact absurd rfl h
  | cons e rest ih =>
    intro _
    rw [evictOld]
    by_cases hc : window_size < totalCount (e :: rest) ∧ rest ≠ []
    · rw [if_pos hc, ih hc.2]
      cases rest with
      | nil => exact absurd rfl hc.2
      | cons f fs => rw [List.getLast?_cons_cons]
    · rw [if_neg hc]

/-- The entry just appended by `windowAppend` is the last one retained. -/
theorem windowAppend_getLast? (window_size : Nat) (buf : List WindowEntry)
    (c : Vec) (n : Nat) (hn : n ≠ 0) :
    (windowAppend window_size buf c n).getLast? = some (WindowEntry.mk c n) := by
  rw [windowAppend, if_neg hn,
    evictOld_getLast? window_size _ (by simp),
    List.getLast?_append_cons]
  rfl

/-- C9 (amended): the sample count `update` forwards to the window buffers is
`predictions.shape[-1]` — the size of the last (sample) dimension.  Whenever
that count is positive, the newest retained entry of each window buffer after
the call is the per-batch delta paired with exactly that count. -/
theorem claim9_window_sample_count (s : RecallState) (p labels : Tensor2)
    (weights : Option Tensor2) (hn : 0 < shapeLast p) :
    ((update s (some p) labels weights).2.window_true_pos.getLast? =
      some (WindowEntry.mk
        (get_recall_states labels p weights s.threshold).true_pos_sum
        (shapeLast p))) ∧
    ((update s (some p) labels weights).2.window_false_neg.getLast? =
      some (WindowEntry.mk
        (get_recall_states labels p weights s.threshold).false_neg_sum
        (shapeLast p))) :=
  ⟨windowAppend_getLast? _ _ _ _ (Nat.pos_iff_ne_zero.mp hn),
   windowAppend_getLast? _ _ _ _ (Nat.pos_iff_ne_zero.mp hn)⟩

/-- Witness for C9 (amended) at a concrete input. -/
theorem claim9_witness :
    0 < shapeLast [[(1 : ℚ), 1, 1]] ∧
    (((update (initState 1 10 (1/2)) (some [[(1 : ℚ), 1, 1]]) [[(1 : ℚ), 1, 1]]
        none).2.window_true_pos.getLast? =
      some (WindowEntry.mk
        (get_recall_states [[(1 : ℚ), 1, 1]] [[(1 : ℚ), 1, 1]] none
          (initState 1 10 (1/2)).threshold).true_pos_sum
        (shapeLast [[(1 : ℚ), 1, 1]]))) ∧
     ((update (initState 1 10 (1/2)) (some [[(1 : ℚ), 1, 1]]) [[(1 : ℚ), 1, 1]]
        none).2.window_false_neg.getLast? =
      some (WindowEntry.mk
        (get_recall_states [[(1 : ℚ), 1, 1]] [[(1 : ℚ), 1, 1]] none
          (initState 1 10 (1/2)).threshold).false_neg_sum
        (shapeLast [[(1 : ℚ), 1, 1]])))) :=
  ⟨by decide,
    claim9_window_sample_count (initState 1 10 (1/2)) [[(1 : ℚ), 1, 1]]
      [[(1 : ℚ), 1, 1]] none (by decide)⟩

/-- C9 (counterexample to the claim as stated): the forwarded sample count is
the last-dimension size (the per-task number of samples), not the size of the
task dimension — for a `[1, 3]` batch the window entry records count `3`,
while the task dimension has size `1`. -/
theorem claim9_counterexample :
    ((update (initState 1 10 (1/2)) (some [[(1 : ℚ), 1, 1]]) [[(1 : ℚ), 1, 1]]
        none).2.window_true_pos.map (fun e => e.sample_count) = [3]) ∧
    ([[(1 : ℚ), 1, 1]] : Tensor2).length = 1 ∧ (3 : Nat) ≠ 1 := by
  decide

/-- A nonempty row exists only at an in-range index. -/
theorem row_ne_nil_lt (T : Tensor2) (i : Nat) (h : row T i ≠ []) : i < T.length := by
  by_contra hn
  push_neg at hn
  exact h (List.getD_eq_default T _ hn)

/-- Length of the per-task delta vector produced by `compute_true_pos_sum`. -/
theorem compute_true_pos_sum_length (L P W : Tensor2) (t : ℚ) :
    (compute_true_pos_sum L P W t).length =
      min W.length (min P.length L.length) := by
  simp [compute_true_pos_sum, sumLastDim, tensorMul, tensorGe, List.length_zipWith]

/-- Length of the per-task delta vector produced by `compute_false_neg_sum`. -/
theorem compute_false_neg_sum_length (L P W : Tensor2) (t : ℚ) :
    (compute_false_neg_sum L P W t).length =
      min W.length (min P.length L.length) := by
  simp [compute_false_neg_sum, sumLastDim, tensorMul, tensorLe, List.length_zipWith]

/-- Task `i` of the true-positive delta is the weighted row sum over that
samples of that task alone. -/
theorem compute_true_pos_sum_getD (L P W : Tensor2) (t : ℚ) (i : Nat)
    (hL : i < L.length) (hP : i < P.length) (hW : i < W.length) :
    (compute_true_pos_sum L P W t).getD i 0 =
      (List.zipWith (· * ·) (row W i)
        (List.zipWith (· * ·)
          ((row P i).map (fun x => if t ≤ x then (1 : ℚ) else 0)) (row L i))).sum := by
  have hlen : i < (compute_true_pos_sum L P W t).length := by
    rw [compute_true_pos_sum_length]; omega
  rw [List.getD_eq_getElem _ _ hlen]
  unfold row
  rw [List.getD_eq_getElem W _ hW, List.getD_eq_getElem P _ hP,
    List.getD_eq_getElem L _ hL]
  simp [compute_true_pos_sum, sumLastDim, tensorMul, tensorGe]

/-- Task `i` of the false-negative delta is the weighted row sum over that
samples of that task alone. -/
theorem compute_false_neg_sum_getD (L P W : Tensor2) (t : ℚ) (i : Nat)
    (hL : i < L.length) (hP : i < P.length) (hW : i < W.length) :
    (compute_false_neg_sum L P W t).getD i 0 =
      (List.zipWith (· * ·) (row W i)
        (List.zipWith (· * ·)
          ((row P i).map (fun x => if x ≤ t then (1 : ℚ) else 0)) (row L i))).sum := by
  have hlen : i < (compute_false_neg_sum L P W t).length := by
    rw [compute_false_neg_sum_length]; omega
  rw [List.getD_eq_getElem _ _ hlen]
  unfold row
  rw [List.getD_eq_getElem W _ hW, List.getD_eq_getElem P _ hP,
    List.getD_eq_getElem L _ hL]
  simp [compute_false_neg_sum, sumLastDim, tensorMul, tensorLe]

/-- C4: a single boundary sample (`prediction == threshold`, `label == 1`,
weight `w`) at task `i` contributes its weight `w` to BOTH the true-positive
and the false-negative sums of that task. -/
theorem claim4_boundary_sample_double_counted (L P W : Tensor2) (i : Nat)
    (t w : ℚ) (hL : row L i = [1]) (hP : row P i = [t]) (hW : row W i = [w]) :
    (compute_true_pos_sum L P W t).getD i 0 = w ∧
    (compute_false_neg_sum L P W t).getD i 0 = w := by
  have hLl : i < L.length := row_ne_nil_lt L i (by rw [hL]; simp)
  have hPl : i < P.length := row_ne_nil_lt P i (by rw [hP]; simp)
  have hWl : i < W.length := row_ne_nil_lt W i (by rw [hW]; simp)
  constructor
  · rw [compute_true_pos_sum_getD L P W t i hLl hPl hWl, hL, hP, hW]
    simp
  · rw [compute_false_neg_sum_getD L P W t i hLl hPl hWl, hL, hP, hW]
    simp

/-- Witness for C4 at a concrete input. -/
theorem claim4_witness :
    (row [[(1 : ℚ)]] 0 = [1] ∧ row [[(1 : ℚ)]] 0 = [1] ∧
      row [[(2 : ℚ)]] 0 = [2]) ∧
    ((compute_true_pos_sum [[(1 : ℚ)]] [[(1 : ℚ)]] [[(2 : ℚ)]] 1).getD 0 0 = 2 ∧
     (compute_false_neg_sum [[(1 : ℚ)]] [[(1 : ℚ)]] [[(2 : ℚ)]] 1).getD 0 0 = 2) :=
  ⟨⟨by decide, by decide, by decide⟩,
    claim4_boundary_sample_double_counted [[(1 : ℚ)]] [[(1 : ℚ)]] [[(2 : ℚ)]]
      0 1 2 (by decide) (by decide) (by decide)⟩

/-! ### C2: the threshold classification rule -/

/-- The spec side of the refinement, following the claim wording: per task,
the sum over samples of the sample weight for exactly those samples with
`prediction >= threshold` and `label == 1`. -/
def specTruePosDelta (labels predictions weights : Tensor2) (t : ℚ) : Vec :=
  (labels.zip (predictions.zip weights)).map (fun rs =>
    ((rs.1.zip (rs.2.1.zip rs.2.2)).map (fun s =>
      if t ≤ s.2.1 ∧ s.1 = 1 then s.2.2 else 0)).sum)

/-- The spec side of the refinement, following the claim wording: per task,
the sum over samples of the sample weight for exactly those samples with
`prediction <= threshold` and `label == 1`. -/
def specFalseNegDelta (labels predictions weights : Tensor2) (t : ℚ) : Vec :=
  (labels.zip (predictions.zip weights)).map (fun rs =>
    ((rs.1.zip (rs.2.1.zip rs.2.2)).map (fun s =>
      if s.2.1 ≤ t ∧ s.1 = 1 then s.2.2 else 0)).sum)

/-- Row-level refinement for the true-positive rule, valid for 0/1 labels. -/
theorem rowTp_eq_spec (t : ℚ) : ∀ lr pr wr : List ℚ,
    lr.length = pr.length → pr.length = wr.length →
    (∀ l ∈ lr, l = 0 ∨ l = 1) →
    List.zipWith (· * ·) wr
      (List.zipWith (· * ·) (pr.map (fun x => if t ≤ x then (1 : ℚ) else 0)) lr) =
    (lr.zip (pr.zip wr)).map
      (fun s => if t ≤ s.2.1 ∧ s.1 = 1 then s.2.2 else 0) := by
  intro lr
  induction lr with
  | nil => intro pr wr _ _ _; simp
  | cons l ls ih =>
    intro pr wr h1 h2 hb
    cases pr with
    | nil => simp at h1
    | cons p ps =>
      cases wr with
      | nil => simp at h2
      | cons w ws =>
        simp only [List.map_cons, List.zipWith_cons_cons, List.zip_cons_cons]
        refine congrArg₂ List.cons ?_ ?_
        · rcases hb l (List.mem_cons_self l ls) with h | h
          · subst h; simp
          · subst h
            by_cases hc : t ≤ p
            · simp [hc]
            · simp [hc]
        · exact ih ps ws (by simpa using h1) (by simpa using h2)
            (fun x hx => hb x (List.mem_cons_of_mem l hx))

/-- Row-level refinement for the false-negative rule, valid for 0/1 labels. -/
theorem rowFn_eq_spec (t : ℚ) : ∀ lr pr wr : List ℚ,
    lr.length = pr.length → pr.length = wr.length →
    (∀ l ∈ lr, l = 0 ∨ l = 1) →
    List.zipWith (· * ·) wr
      (List.zipWith (· * ·) (pr.map (fun x => if x ≤ t then (1 : ℚ) else 0)) lr) =
    (lr.zip (pr.zip wr)).map
      (fun s => if s.2.1 ≤ t ∧ s.1 = 1 then s.2.2 else 0) := by
  intro lr
  induction lr with
  | nil => intro pr wr _ _ _; simp
  | cons l ls ih =>
    intro pr wr h1 h2 hb
    cases pr with
    | nil => simp at h1
    | cons p ps =>
      cases wr with
      | nil => simp at h2
      | cons w ws =>
        simp only [List.map_cons, List.zipWith_cons_cons, List.zip_cons_cons]
        refine congrArg₂ List.cons ?_ ?_
        · rcases hb l (List.mem_cons_self l ls) with h | h
          · subst h; simp
          · subst h
            by_cases hc : p ≤ t
            · simp [hc]
            · simp [hc]
        · exact ih ps ws (by simpa using h1) (by simpa using h2)
            (fun x hx => hb x (List.mem_cons_of_mem l hx))

/-- `compute_true_pos_sum` on cons cells. -/
theorem compute_true_pos_sum_cons (l p w : List ℚ) (ls ps ws : Tensor2) (t : ℚ) :
    compute_true_pos_sum (l :: ls) (p :: ps) (w :: ws) t =
      (List.zipWith (· * ·) w
        (List.zipWith (· * ·) (p.map (fun x => if t ≤ x then (1 : ℚ) else 0)) l)).sum ::
      compute_true_pos_sum ls ps ws t :=
  rfl

/-- `compute_false_neg_sum` on cons cells. -/
theorem compute_false_neg_sum_cons (l p w : List ℚ) (ls ps ws : Tensor2) (t : ℚ) :
    compute_false_neg_sum (l :: ls) (p :: ps) (w :: ws) t =
      (List.zipWith (· * ·) w
        (List.zipWith (· * ·) (p.map (fun x => if x ≤ t then (1 : ℚ) else 0)) l)).sum ::
      compute_false_neg_sum ls ps ws t :=
  rfl

/-- `specTruePosDelta` on cons cells. -/
theorem specTruePosDelta_cons (l p w : List ℚ) (ls ps ws : Tensor2) (t : ℚ) :
    specTruePosDelta (l :: ls) (p :: ps) (w :: ws) t =
      ((l.zip (p.zip w)).map
        (fun s => if t ≤ s.2.1 ∧ s.1 = 1 then s.2.2 else 0)).sum ::
      specTruePosDelta ls ps ws t :=
  rfl

/-- `specFalseNegDelta` on cons cells. -/
theorem specFalseNegDelta_cons (l p w : List ℚ) (ls ps ws : Tensor2) (t : ℚ) :
    specFalseNegDelta (l :: ls) (p :: ps) (w :: ws) t =
      ((l.zip (p.zip w)).map
        (fun s => if s.2.1 ≤ t ∧ s.1 = 1 then s.2.2 else 0)).sum ::
      specFalseNegDelta ls ps ws t :=
  rfl

/-- Shape agreement between two tensors: same number of task rows and,
rowwise, the same number of samples. -/
abbrev SameShape (a b : Tensor2) : Prop :=
  List.Forall₂ (fun r q => r.length = q.length) a b

/-- For binary (0/1) labels, the true-positive delta computed by the code is
exactly the weighted indicator sum the spec describes. -/
theorem compute_true_pos_sum_eq_spec (t : ℚ) (L P W : Tensor2)
    (hLP : SameShape L P) (hPW : SameShape P W)
    (hbin : ∀ r ∈ L, ∀ l ∈ r, l = 0 ∨ l = 1) :
    compute_true_pos_sum L P W t = specTruePosDelta L P W t := by
  induction hLP generalizing W with
  | nil =>
    cases hPW
    simp [compute_true_pos_sum, specTruePosDelta, tensorMul, tensorGe, sumLastDim]
  | @cons l p ls ps hlp hlps ih =>
    cases hPW with
    | cons hpw hpws =>
      rename_i w ws
      rw [compute_true_pos_sum_cons, specTruePosDelta_cons]
      refine congrArg₂ List.cons ?_ ?_
      · exact congrArg List.sum
          (rowTp_eq_spec t l p w hlp hpw (hbin l (List.mem_cons_self l ls)))
      · exact ih ws hpws (fun r hr => hbin r (List.mem_cons_of_mem l hr))

/-- For binary (0/1) labels, the false-negative delta computed by the code is
exactly the weighted indicator sum the spec describes. -/
theorem compute_false_neg_sum_eq_spec (t : ℚ) (L P W : Tensor2)
    (hLP : SameShape L P) (hPW : SameShape P W)
    (hbin : ∀ r ∈ L, ∀ l ∈ r, l = 0 ∨ l = 1) :
    compute_false_neg_sum L P W t = specFalseNegDelta L P W t := by
  induction hLP generalizing W with
  | nil =>
    cases hPW
    simp [compute_false_neg_sum, specFalseNegDelta, tensorMul, tensorLe, sumLastDim]
  | @cons l p ls ps hlp hlps ih =>
    cases hPW with
    | cons hpw hpws =>
      rename_i w ws
      rw [compute_false_neg_sum_cons, specFalseNegDelta_cons]
      refine congrArg₂ List.cons ?_ ?_
      · exact congrArg List.sum
          (rowFn_eq_spec t l p w hlp hpw (hbin l (List.mem_cons_self l ls)))
      · exact ih ws hpws (fun r hr => hbin r (List.mem_cons_of_mem l hr))

/-- C2 (amended: labels restricted to 0/1): `update` adds, per task, the
weighted indicator sums of the spec to `true_pos_sum` and `false_neg_sum`, and
omitted weights behave as an all-ones tensor shaped like `predictions`. -/
theorem claim2_update_threshold_rule (s : RecallState) (L P W : Tensor2)
    (hLP : SameShape L P) (hPW : SameShape P W)
    (hbin : ∀ r ∈ L, ∀ l ∈ r, l = 0 ∨ l = 1) :
    ((update s (some P) L (some W)).2.true_pos_sum =
      vecAdd s.true_pos_sum (specTruePosDelta L P W s.threshold)) ∧
    ((update s (some P) L (some W)).2.false_neg_sum =
      vecAdd s.false_neg_sum (specFalseNegDelta L P W s.threshold)) ∧
    get_recall_states L P none s.threshold =
      get_recall_states L P (some (onesLike P)) s.threshold := by
  refine ⟨?_, ?_, rfl⟩
  · show vecAdd s.true_pos_sum
        (compute_true_pos_sum L P W s.threshold) = _
    rw [compute_true_pos_sum_eq_spec s.threshold L P W hLP hPW hbin]
  · show vecAdd s.false_neg_sum
        (compute_false_neg_sum L P W s.threshold) = _
    rw [compute_false_neg_sum_eq_spec s.threshold L P W hLP hPW hbin]

/-- Witness for C2 (amended) at a concrete input. -/
theorem claim2_witness :
    (SameShape [[(1 : ℚ), 0]] [[(1 : ℚ), 0]] ∧
     SameShape [[(1 : ℚ), 0]] [[(2 : ℚ), 3]] ∧
     (∀ r ∈ ([[(1 : ℚ), 0]] : Tensor2), ∀ l ∈ r, l = 0 ∨ l = 1)) ∧
    (((update (initState 1 10 1) (some [[(1 : ℚ), 0]]) [[(1 : ℚ), 0]]
        (some [[(2 : ℚ), 3]])).2.true_pos_sum =
      vecAdd (initState 1 10 1).true_pos_sum
        (specTruePosDelta [[(1 : ℚ), 0]] [[(1 : ℚ), 0]] [[(2 : ℚ), 3]]
          (initState 1 10 1).threshold)) ∧
     ((update (initState 1 10 1) (some [[(1 : ℚ), 0]]) [[(1 : ℚ), 0]]
        (some [[(2 : ℚ), 3]])).2.false_neg_sum =
      vecAdd (initState 1 10 1).false_neg_sum
        (specFalseNegDelta [[(1 : ℚ), 0]] [[(1 : ℚ), 0]] [[(2 : ℚ), 3]]
          (initState 1 10 1).threshold)) ∧
     get_recall_states [[(1 : ℚ), 0]] [[(1 : ℚ), 0]] none
        (initState 1 10 1).threshold =
      get_recall_states [[(1 : ℚ), 0]] [[(1 : ℚ), 0]]
        (some (onesLike [[(1 : ℚ), 0]])) (initState 1 10 1).threshold) :=
  ⟨⟨List.Forall₂.cons rfl List.Forall₂.nil,
    List.Forall₂.cons rfl List.Forall₂.nil,
    by decide⟩,
    claim2_update_threshold_rule (initState 1 10 1) [[(1 : ℚ), 0]] [[(1 : ℚ), 0]]
      [[(2 : ℚ), 3]]
      (List.Forall₂.cons rfl List.Forall₂.nil)
      (List.Forall₂.cons rfl List.Forall₂.nil)
      (by decide)⟩

/-- C2 (counterexample to the claim as stated): a sample with label `2`
(hence `label != 1`) is not ignored — the code weights the contribution by
the label value, so it adds twice the weight. -/
theorem claim2_counterexample :
    compute_true_pos_sum [[(2 : ℚ)]] [[(1 : ℚ)]] [[(1 : ℚ)]] 1 = [2] ∧
    specTruePosDelta [[(2 : ℚ)]] [[(1 : ℚ)]] [[(1 : ℚ)]] 1 = [0] ∧
    ([(2 : ℚ)] : Vec) ≠ [(0 : ℚ)] := by
  norm_num [compute_true_pos_sum, tensorMul, tensorGe, sumLastDim, specTruePosDelta]

/-! ### C6: tasks that never see a positive label -/

/-- Members of a `zipWith` arise from members of both input lists. -/
theorem mem_zipWith_ex {α β γ : Type} (f : α → β → γ) :
    ∀ (a : List α) (b : List β), ∀ c ∈ List.zipWith f a b,
      ∃ x ∈ a, ∃ y ∈ b, c = f x y := by
  intro a
  induction a with
  | nil => intro b c hc; simp at hc
  | cons x xs ih =>
    intro b c hc
    cases b with
    | nil => simp at hc
    | cons y ys =>
      rw [List.zipWith_cons_cons] at hc
      rcases List.mem_cons.mp hc with h | h
      · exact ⟨x, List.mem_cons_self x xs, y, List.mem_cons_self y ys, h⟩
      · rcases ih ys c h with ⟨u, hu, v, hv, he⟩
        exact ⟨u, List.mem_cons_of_mem x hu, v, List.mem_cons_of_mem y hv, he⟩

/-- Adding two vectors that are zero at task `i` stays zero at task `i`. -/
theorem vecAdd_getD_zero (a b : Vec) (i : Nat) (ha : a.getD i 0 = 0)
    (hb : b.getD i 0 = 0) : (vecAdd a b).getD i 0 = 0 := by
  by_cases h : i < (vecAdd a b).length
  · have hlen : (vecAdd a b).length = min a.length b.length := by
      simp [vecAdd, List.length_zipWith]
    have hal : i < a.length := by omega
    have hbl : i < b.length := by omega
    rw [List.getD_eq_getElem _ _ h]
    rw [List.getD_eq_getElem _ _ hal] at ha
    rw [List.getD_eq_getElem _ _ hbl] at hb
    simp [vecAdd, ha, hb]
  · push_neg at h
    exact List.getD_eq_default _ _ h

/-- If every label of task `i` is zero, the true-positive delta of task `i`
is zero (whatever the predictions and weights are). -/
theorem compute_true_pos_sum_getD_zero (L P W : Tensor2) (t : ℚ) (i : Nat)
    (h : ∀ l ∈ row L i, l = 0) :
    (compute_true_pos_sum L P W t).getD i 0 = 0 := by
  by_cases hi : i < (compute_true_pos_sum L P W t).length
  · have hmin := compute_true_pos_sum_length L P W t
    have hL : i < L.length := by omega
    have hP : i < P.length := by omega
    have hW : i < W.length := by omega
    rw [compute_true_pos_sum_getD L P W t i hL hP hW]
    apply List.sum_eq_zero
    intro x hx
    rcases mem_zipWith_ex _ _ _ x hx with ⟨w, hw, y, hy, hxe⟩
    rcases mem_zipWith_ex _ _ _ y hy with ⟨g, hg, l, hl, hye⟩
    subst hxe; subst hye
    rw [h l hl]
    ring
  · push_neg at hi
    exact List.getD_eq_default _ _ hi

/-- If every label of task `i` is zero, the false-negative delta of task `i`
is zero. -/
theorem compute_false_neg_sum_getD_zero (L P W : Tensor2) (t : ℚ) (i : Nat)
    (h : ∀ l ∈ row L i, l = 0) :
    (compute_false_neg_sum L P W t).getD i 0 = 0 := by
  by_cases hi : i < (compute_false_neg_sum L P W t).length
  · have hmin := compute_false_neg_sum_length L P W t
    have hL : i < L.length := by omega
    have hP : i < P.length := by omega
    have hW : i < W.length := by omega
    rw [compute_false_neg_sum_getD L P W t i hL hP hW]
    apply List.sum_eq_zero
    intro x hx
    rcases mem_zipWith_ex _ _ _ x hx with ⟨w, hw, y, hy, hxe⟩
    rcases mem_zipWith_ex _ _ _ y hy with ⟨g, hg, l, hl, hye⟩
    subst hxe; subst hye
    rw [h l hl]
    ring
  · push_neg at hi
    exact List.getD_eq_default _ _ hi

/-- Eviction never invents entries. -/
theorem mem_evictOld (window_size : Nat) :
    ∀ l : List WindowEntry, ∀ x ∈ evictOld window_size l, x ∈ l := by
  intro l
  induction l with
  | nil => intro x hx; rw [evictOld] at hx; exact hx
  | cons e rest ih =>
    intro x hx
    rw [evictOld] at hx
    by_cases hc : window_size < totalCount (e :: rest) ∧ rest ≠ []
    · rw [if_pos hc] at hx
      exact List.mem_cons_of_mem e (ih x hx)
    · rw [if_neg hc] at hx
      exact hx

/-- An entry retained after `windowAppend` is an old entry or the new one. -/
theorem mem_windowAppend (window_size : Nat) (buf : List WindowEntry) (c : Vec)
    (n : Nat) : ∀ x ∈ windowAppend window_size buf c n,
      x ∈ buf ∨ x = WindowEntry.mk c n := by
  intro x hx
  rw [windowAppend] at hx
  by_cases hn : n = 0
  · rw [if_pos hn] at hx
    exact Or.inl hx
  · rw [if_neg hn] at hx
    rcases List.mem_append.mp (mem_evictOld window_size _ x hx) with h | h
    · exact Or.inl h
    · exact Or.inr (List.mem_singleton.mp h)

/-- All per-task state of a `RecallState` is zero at task `i`: both lifetime
accumulators and every retained window contribution. -/
def ZeroAt (i : Nat) (s : RecallState) : Prop :=
  s.true_pos_sum.getD i 0 = 0 ∧ s.false_neg_sum.getD i 0 = 0 ∧
  (∀ e ∈ s.window_true_pos, e.contribution.getD i 0 = 0) ∧
  (∀ e ∈ s.window_false_neg, e.contribution.getD i 0 = 0)

/-- `getD` of an all-zero vector is zero at every index. -/
theorem replicate_getD_zero (n i : Nat) :
    (List.replicate n (0 : ℚ)).getD i 0 = 0 := by
  by_cases h : i < n
  · rw [List.getD_eq_getElem _ _ (by simpa using h)]
    simp
  · exact List.getD_eq_default _ _ (by simpa using Nat.not_lt.mp h)

/-- One `update` whose batch has only zero labels at task `i` preserves
`ZeroAt i`. -/
theorem zeroAt_applyBatch (i : Nat) (s : RecallState) (b : Batch)
    (hb : ∀ l ∈ row b.labels i, l = 0) (hs : ZeroAt i s) :
    ZeroAt i (applyBatch s b) := by
  obtain ⟨pred, labels, weights⟩ := b
  cases pred with
  | none => exact hs
  | some q =>
    obtain ⟨h1, h2, h3, h4⟩ := hs
    refine ⟨?_, ?_, ?_, ?_⟩
    · exact vecAdd_getD_zero _ _ i h1 (compute_true_pos_sum_getD_zero _ _ _ _ i hb)
    · exact vecAdd_getD_zero _ _ i h2 (compute_false_neg_sum_getD_zero _ _ _ _ i hb)
    · intro e he
      rcases mem_windowAppend _ _ _ _ e he with h | h
      · exact h3 e h
      · rw [h]
        exact compute_true_pos_sum_getD_zero _ _ _ _ i hb
    · intro e he
      rcases mem_windowAppend _ _ _ _ e he with h | h
      · exact h4 e h
      · rw [h]
        exact compute_false_neg_sum_getD_zero _ _ _ _ i hb

/-- `ZeroAt i` is preserved along any sequence of updates whose batches have
only zero labels at task `i`. -/
theorem zeroAt_runUpdates (i : Nat) (bs : List Batch) :
    ∀ s : RecallState, ZeroAt i s →
      (∀ b ∈ bs, ∀ l ∈ row b.labels i, l = 0) →
      ZeroAt i (runUpdates s bs) := by
  induction bs with
  | nil => intro s hs _; exact hs
  | cons b bs ih =>
    intro s hs hb
    exact ih (applyBatch s b)
      (zeroAt_applyBatch i s b (hb b (List.mem_cons_self b bs)) hs)
      (fun b' hb' => hb b' (List.mem_cons_of_mem b hb'))

/-- The windowed sum of a buffer whose contributions vanish at task `i`
vanishes at task `i`. -/
theorem get_window_state_getD_zero (n i : Nat) (buf : List WindowEntry)
    (h : ∀ e ∈ buf, e.contribution.getD i 0 = 0) :
    (get_window_state n buf).getD i 0 = 0 := by
  have haux : ∀ (l : List WindowEntry) (a : Vec), a.getD i 0 = 0 →
      (∀ e ∈ l, e.contribution.getD i 0 = 0) →
      (l.foldl (fun a e => vecAdd a e.contribution) a).getD i 0 = 0 := by
    intro l
    induction l with
    | nil => intro a ha _; exact ha
    | cons e es ih =>
      intro a ha hl
      exact ih (vecAdd a e.contribution)
        (vecAdd_getD_zero _ _ i ha (hl e (List.mem_cons_self e es)))
        (fun f hf => hl f (List.mem_cons_of_mem e hf))
  exact haux buf _ (replicate_getD_zero n i) h

/-- Recall of two vectors that vanish at task `i` vanishes at task `i`
(the zero-guard case). -/
theorem compute_recall_getD_zero (N D : Vec) (i : Nat) (hN : N.getD i 0 = 0)
    (hD : D.getD i 0 = 0) : (compute_recall N D).getD i 0 = 0 := by
  by_cases h : i < (compute_recall N D).length
  · have hlen : (compute_recall N D).length = min N.length D.length := by
      simp [compute_recall, List.length_zipWith]
    have hNl : i < N.length := by omega
    have hDl : i < D.length := by omega
    rw [List.getD_eq_getElem _ _ h]
    rw [List.getD_eq_getElem _ _ hNl] at hN
    rw [List.getD_eq_getElem _ _ hDl] at hD
    simp [compute_recall, hN, hD]
  · push_neg at h
    exact List.getD_eq_default _ _ h

/-- C6 (amended: labels restricted to 0, i.e. binary labels with no positive
label for task `i`): after any sequence of updates in which task `i` only
ever receives zero labels, both the LIFETIME and the WINDOW recall report
values are exactly `0` at task `i`. -/
theorem claim6_no_positive_label_zero_recall (n ws : Nat) (t : ℚ)
    (bs : List Batch) (i : Nat)
    (h : ∀ b ∈ bs, ∀ l ∈ row b.labels i, l = 0) :
    ∀ r ∈ (_compute (runUpdates (initState n ws t) bs)).1,
      r.value.getD i 0 = 0 := by
  have hinit : ZeroAt i (initState n ws t) :=
    ⟨replicate_getD_zero n i, replicate_getD_zero n i,
     fun e he => absurd he (List.not_mem_nil e),
     fun e he => absurd he (List.not_mem_nil e)⟩
  have hz := zeroAt_runUpdates i bs (initState n ws t) hinit h
  obtain ⟨h1, h2, h3, h4⟩ := hz
  intro r hr
  rcases List.mem_cons.mp hr with he | he
  · rw [he]
    exact compute_recall_getD_zero _ _ i h1 h2
  · rw [List.mem_singleton.mp he]
    exact compute_recall_getD_zero _ _ i
      (get_window_state_getD_zero _ i _ h3)
      (get_window_state_getD_zero _ i _ h4)

/-- Witness for C6 (amended) at a concrete input. -/
theorem claim6_witness :
    (∀ b ∈ [Batch.mk (some [[(1 : ℚ), 0]]) [[(0 : ℚ), 0]] none],
      ∀ l ∈ row b.labels 0, l = 0) ∧
    (∀ r ∈ (_compute (runUpdates (initState 1 10 1)
        [Batch.mk (some [[(1 : ℚ), 0]]) [[(0 : ℚ), 0]] none])).1,
      r.value.getD 0 0 = 0) :=
  ⟨by decide,
    claim6_no_positive_label_zero_recall 1 10 1
      [Batch.mk (some [[(1 : ℚ), 0]]) [[(0 : ℚ), 0]] none] 0 (by decide)⟩

/-- C6 (counterexample to the claim as stated): with a non-binary label `2`
(which is not the positive label `1`), the code still accumulates
`2 * weight` into `true_pos_sum`, so a task that never saw `label == 1`
reports recall `1`, not `0`. -/
theorem claim6_counterexample :
    (row ([[(2 : ℚ)]] : Tensor2) 0 = [2] ∧ (2 : ℚ) ≠ 1) ∧
    ((_compute (runUpdates (initState 1 10 1)
        [Batch.mk (some [[(2 : ℚ)]]) [[(2 : ℚ)]] none])).1.map
      (fun r => r.value.getD 0 0) = [1, 1]) ∧ (1 : ℚ) ≠ 0 := by
  refine ⟨by decide, ?_, by norm_num⟩
  norm_num [_compute, runUpdates, applyBatch, update, get_recall_states,
    compute_true_pos_sum, compute_false_neg_sum, tensorMul, tensorGe, tensorLe,
    sumLastDim, onesLike, initState, vecAdd, windowAppend, evictOld, totalCount,
    shapeLast, get_window_state, compute_recall]

/-! ### C5: recall values lie in the unit interval -/

/-- All entries of the all-ones tensor are nonnegative. -/
theorem onesLike_nonneg (P : Tensor2) : ∀ r ∈ onesLike P, ∀ x ∈ r, 0 ≤ x := by
  intro r hr x hx
  rcases List.mem_map.mp hr with ⟨q, _, hq⟩
  subst hq
  rcases List.mem_map.mp hx with ⟨_, _, hx1⟩
  subst hx1
  norm_num

/-- With nonnegative labels and weights, each true-positive delta is
nonnegative. -/
theorem compute_true_pos_sum_nonneg (L P W : Tensor2) (t : ℚ)
    (hL : ∀ r ∈ L, ∀ x ∈ r, 0 ≤ x) (hW : ∀ r ∈ W, ∀ x ∈ r, 0 ≤ x) :
    ∀ v ∈ compute_true_pos_sum L P W t, 0 ≤ v := by
  intro v hv
  have hv' : v ∈ List.map (fun r => r.sum)
      (tensorMul W (tensorMul (tensorGe P t) L)) := hv
  rcases List.mem_map.mp hv' with ⟨r, hr, hre⟩
  subst hre
  apply List.sum_nonneg
  intro x hx
  rcases mem_zipWith_ex _ _ _ r hr with ⟨wr, hwr, ir, hir, hre2⟩
  subst hre2
  rcases mem_zipWith_ex _ _ _ x hx with ⟨w, hw, y, hy, hxe⟩
  subst hxe
  rcases mem_zipWith_ex _ _ _ ir hir with ⟨gr, hgr, lr, hlr, hire⟩
  subst hire
  rcases mem_zipWith_ex _ _ _ y hy with ⟨g, hg, l, hl, hye⟩
  subst hye
  have hgnn : 0 ≤ g := by
    rcases List.mem_map.mp hgr with ⟨pr, _, hpr⟩
    subst hpr
    rcases List.mem_map.mp hg with ⟨p, _, hp⟩
    subst hp
    by_cases hc : t ≤ p
    · rw [if_pos hc]; norm_num
    · rw [if_neg hc]
  exact mul_nonneg (hW wr hwr w hw) (mul_nonneg hgnn (hL lr hlr l hl))

/-- With nonnegative labels and weights, each false-negative delta is
nonnegative. -/
theorem compute_false_neg_sum_nonneg (L P W : Tensor2) (t : ℚ)
    (hL : ∀ r ∈ L, ∀ x ∈ r, 0 ≤ x) (hW : ∀ r ∈ W, ∀ x ∈ r, 0 ≤ x) :
    ∀ v ∈ compute_false_neg_sum L P W t, 0 ≤ v := by
  intro v hv
  have hv' : v ∈ List.map (fun r => r.sum)
      (tensorMul W (tensorMul (tensorLe P t) L)) := hv
  rcases List.mem_map.mp hv' with ⟨r, hr, hre⟩
  subst hre
  apply List.sum_nonneg
  intro x hx
  rcases mem_zipWith_ex _ _ _ r hr with ⟨wr, hwr, ir, hir, hre2⟩
  subst hre2
  rcases mem_zipWith_ex _ _ _ x hx with ⟨w, hw, y, hy, hxe⟩
  subst hxe
  rcases mem_zipWith_ex _ _ _ ir hir with ⟨gr, hgr, lr, hlr, hire⟩
  subst hire
  rcases mem_zipWith_ex _ _ _ y hy with ⟨g, hg, l, hl, hye⟩
  subst hye
  have hgnn : 0 ≤ g := by
    rcases List.mem_map.mp hgr with ⟨pr, _, hpr⟩
    subst hpr
    rcases List.mem_map.mp hg with ⟨p, _, hp⟩
    subst hp
    by_cases hc : p ≤ t
    · rw [if_pos hc]; norm_num
    · rw [if_neg hc]
  exact mul_nonneg (hW wr hwr w hw) (mul_nonneg hgnn (hL lr hlr l hl))

/-- Adding two nonnegative vectors stays nonnegative. -/
theorem vecAdd_nonneg (a b : Vec) (ha : ∀ x ∈ a, 0 ≤ x) (hb : ∀ x ∈ b, 0 ≤ x) :
    ∀ x ∈ vecAdd a b, 0 ≤ x := by
  intro x hx
  rcases mem_zipWith_ex _ _ _ x hx with ⟨u, hu, v, hv, he⟩
  subst he
  exact add_nonneg (ha u hu) (hb v hv)

/-- Per-batch input sanity for C5: nonnegative labels and, when provided,
nonnegative weights. -/
def GoodBatch (b : Batch) : Prop :=
  (∀ r ∈ b.labels, ∀ x ∈ r, 0 ≤ x) ∧
  (∀ w, b.weights = some w → ∀ r ∈ w, ∀ x ∈ r, 0 ≤ x)

/-- Both state deltas of a good batch are nonnegative. -/
theorem get_recall_states_nonneg (L P : Tensor2) (wo : Option Tensor2) (t : ℚ)
    (hL : ∀ r ∈ L, ∀ x ∈ r, 0 ≤ x)
    (hw : ∀ w, wo = some w → ∀ r ∈ w, ∀ x ∈ r, 0 ≤ x) :
    (∀ x ∈ (get_recall_states L P wo t).true_pos_sum, 0 ≤ x) ∧
    (∀ x ∈ (get_recall_states L P wo t).false_neg_sum, 0 ≤ x) := by
  cases wo with
  | none =>
    exact ⟨compute_true_pos_sum_nonneg L P (onesLike P) t hL (onesLike_nonneg P),
      compute_false_neg_sum_nonneg L P (onesLike P) t hL (onesLike_nonneg P)⟩
  | some w =>
    exact ⟨compute_true_pos_sum_nonneg L P w t hL (hw w rfl),
      compute_false_neg_sum_nonneg L P w t hL (hw w rfl)⟩

/-- Nonnegativity of all per-task state of a `RecallState`. -/
def StateNonneg (s : RecallState) : Prop :=
  (∀ x ∈ s.true_pos_sum, 0 ≤ x) ∧ (∀ x ∈ s.false_neg_sum, 0 ≤ x) ∧
  (∀ e ∈ s.window_true_pos, ∀ x ∈ e.contribution, 0 ≤ x) ∧
  (∀ e ∈ s.window_false_neg, ∀ x ∈ e.contribution, 0 ≤ x)

/-- One `update` with a good batch preserves `StateNonneg`. -/
theorem stateNonneg_applyBatch (s : RecallState) (b : Batch)
    (hb : GoodBatch b) (hs : StateNonneg s) : StateNonneg (applyBatch s b) := by
  obtain ⟨pred, labels, weights⟩ := b
  cases pred with
  | none => exact hs
  | some q =>
    obtain ⟨h1, h2, h3, h4⟩ := hs
    obtain ⟨hdt, hdf⟩ :=
      get_recall_states_nonneg labels q weights s.threshold hb.1 hb.2
    refine ⟨vecAdd_nonneg _ _ h1 hdt, vecAdd_nonneg _ _ h2 hdf, ?_, ?_⟩
    · intro e he
      rcases mem_windowAppend _ _ _ _ e he with h | h
      · exact h3 e h
      · rw [h]; exact hdt
    · intro e he
      rcases mem_windowAppend _ _ _ _ e he with h | h
      · exact h4 e h
      · rw [h]; exact hdf

/-- `StateNonneg` is preserved along any sequence of good updates. -/
theorem stateNonneg_runUpdates (bs : List Batch) :
    ∀ s : RecallState, StateNonneg s → (∀ b ∈ bs, GoodBatch b) →
      StateNonneg (runUpdates s bs) := by
  induction bs with
  | nil => intro s hs _; exact hs
  | cons b bs ih =>
    intro s hs hb
    exact ih (applyBatch s b)
      (stateNonneg_applyBatch s b (hb b (List.mem_cons_self b bs)) hs)
      (fun b' hb' => hb b' (List.mem_cons_of_mem b hb'))

/-- The windowed sum of nonnegative contributions is nonnegative. -/
theorem get_window_state_nonneg (n : Nat) (buf : List WindowEntry)
    (h : ∀ e ∈ buf, ∀ x ∈ e.contribution, 0 ≤ x) :
    ∀ x ∈ get_window_state n buf, 0 ≤ x := by
  have haux : ∀ (l : List WindowEntry) (a : Vec), (∀ x ∈ a, 0 ≤ x) →
      (∀ e ∈ l, ∀ x ∈ e.contribution, 0 ≤ x) →
      ∀ x ∈ l.foldl (fun a e => vecAdd a e.contribution) a, 0 ≤ x := by
    intro l
    induction l with
    | nil => intro a ha _; exact ha
    | cons e es ih =>
      intro a ha hl
      exact ih (vecAdd a e.contribution)
        (vecAdd_nonneg _ _ ha (hl e (List.mem_cons_self e es)))
        (fun f hf => hl f (List.mem_cons_of_mem e hf))
  refine haux buf _ ?_ h
  intro x hx
  rw [List.eq_of_mem_replicate hx]

/-- `compute_recall` of nonnegative numerator and complement lies in `[0,1]`
elementwise. -/
theorem compute_recall_mem_unit (N D : Vec) (hN : ∀ x ∈ N, 0 ≤ x)
    (hD : ∀ x ∈ D, 0 ≤ x) : ∀ x ∈ compute_recall N D, 0 ≤ x ∧ x ≤ 1 := by
  intro x hx
  rcases mem_zipWith_ex _ _ _ x hx with ⟨a, ha, b, hb, he⟩
  subst he
  by_cases hz : a + b = 0
  · rw [if_pos hz]
    norm_num
  · rw [if_neg hz]
    have hab : 0 < a + b :=
      lt_of_le_of_ne (add_nonneg (hN a ha) (hD b hb)) (Ne.symm hz)
    constructor
    · exact div_nonneg (hN a ha) (le_of_lt hab)
    · rw [div_le_one hab]
      exact le_add_of_nonneg_right (hD b hb)

/-- C5 (amended: labels and provided weights nonnegative): after any sequence
of updates, the LIFETIME and WINDOW recall values of every task lie in
`[0, 1]`. -/
theorem claim5_recall_in_unit_interval (n ws : Nat) (t : ℚ) (bs : List Batch)
    (h : ∀ b ∈ bs, GoodBatch b) :
    ∀ r ∈ (_compute (runUpdates (initState n ws t) bs)).1,
      ∀ x ∈ r.value, 0 ≤ x ∧ x ≤ 1 := by
  have hinit : StateNonneg (initState n ws t) := by
    refine ⟨?_, ?_, ?_, ?_⟩
    · intro x hx; rw [List.eq_of_mem_replicate hx]
    · intro x hx; rw [List.eq_of_mem_replicate hx]
    · intro e he; exact absurd he (List.not_mem_nil e)
    · intro e he; exact absurd he (List.not_mem_nil e)
  obtain ⟨h1, h2, h3, h4⟩ := stateNonneg_runUpdates bs (initState n ws t) hinit h
  intro r hr
  rcases List.mem_cons.mp hr with he | he
  · rw [he]
    exact compute_recall_mem_unit _ _ h1 h2
  · rw [List.mem_singleton.mp he]
    exact compute_recall_mem_unit _ _
      (get_window_state_nonneg _ _ h3)
      (get_window_state_nonneg _ _ h4)

/-- Witness for C5 (amended) at a concrete input. -/
theorem claim5_witness :
    (∀ b ∈ [Batch.mk (some [[(2 : ℚ), 0]]) [[(1 : ℚ), 1]] (some [[(1 : ℚ), 1]])],
      GoodBatch b) ∧
    (∀ r ∈ (_compute (runUpdates (initState 1 10 1)
        [Batch.mk (some [[(2 : ℚ), 0]]) [[(1 : ℚ), 1]] (some [[(1 : ℚ), 1]])])).1,
      ∀ x ∈ r.value, 0 ≤ x ∧ x ≤ 1) :=
  have hgb : ∀ b ∈ [Batch.mk (some [[(2 : ℚ), 0]]) [[(1 : ℚ), 1]]
      (some [[(1 : ℚ), 1]])], GoodBatch b := by
    intro b hb
    rw [List.mem_singleton.mp hb]
    exact ⟨by decide, fun w hw => Option.some.inj hw ▸
      (show ∀ r ∈ ([[(1 : ℚ), 1]] : Tensor2), ∀ x ∈ r, 0 ≤ x by decide)⟩
  ⟨hgb, claim5_recall_in_unit_interval 1 10 1 _ hgb⟩

/-- C5 (counterexample to the claim as stated): with a negative sample weight
(a well-shaped input the claim quantifies over), both reported recall values
are `-1`, outside `[0, 1]`. -/
theorem claim5_counterexample :
    ((_compute (runUpdates (initState 1 10 1)
        [Batch.mk (some [[(2 : ℚ), 0]]) [[(1 : ℚ), 1]]
          (some [[(1 : ℚ), -2]])])).1.map
      (fun r => r.value.getD 0 0) = [-1, -1]) ∧ ¬((0 : ℚ) ≤ -1) := by
  refine ⟨?_, by norm_num⟩
  norm_num [_compute, runUpdates, applyBatch, update, get_recall_states,
    compute_true_pos_sum, compute_false_neg_sum, tensorMul, tensorGe, tensorLe,
    sumLastDim, onesLike, initState, vecAdd, windowAppend, evictOld, totalCount,
    shapeLast, get_window_state, compute_recall]

/-! ### C7: distributed sum-reduction over workers -/

/-- `vecAdd` is associative (pointwise, truncation-safe). -/
theorem vecAdd_assoc (a b c : Vec) :
    vecAdd (vecAdd a b) c = vecAdd a (vecAdd b c) := by
  induction a generalizing b c with
  | nil => simp [vecAdd]
  | cons x xs ih =>
    cases b with
    | nil => simp [vecAdd]
    | cons y ys =>
      cases c with
      | nil => simp [vecAdd]
      | cons z zs =>
        simp only [vecAdd, List.zipWith_cons_cons]
        exact congrArg₂ List.cons (add_assoc x y z) (ih ys zs)

/-- The zero vector is a left identity on vectors of its own length. -/
theorem vecAdd_replicate_left (v : Vec) : ∀ n : Nat, v.length = n →
    vecAdd (List.replicate n 0) v = v := by
  induction v with
  | nil => intro n h; subst h; rfl
  | cons x xs ih =>
    intro n h
    subst h
    simp only [List.length_cons, List.replicate_succ, vecAdd,
      List.zipWith_cons_cons]
    exact congrArg₂ List.cons (zero_add x) (ih xs.length rfl)

/-- The zero vector is a right identity on vectors of its own length. -/
theorem vecAdd_replicate_right (a : Vec) : ∀ n : Nat, a.length = n →
    vecAdd a (List.replicate n 0) = a := by
  induction a with
  | nil => intro n h; subst h; rfl
  | cons x xs ih =>
    intro n h
    subst h
    simp only [List.length_cons, List.replicate_succ, vecAdd,
      List.zipWith_cons_cons]
    exact congrArg₂ List.cons (add_zero x) (ih xs.length rfl)

/-- Folding `vecAdd` over length-`n` vectors preserves the length. -/
theorem foldl_vecAdd_length (n : Nat) : ∀ (l : List Vec) (a : Vec),
    a.length = n → (∀ v ∈ l, v.length = n) → (l.foldl vecAdd a).length = n := by
  intro l
  induction l with
  | nil => intro a ha _; exact ha
  | cons v vs ih =>
    intro a ha hl
    refine ih (vecAdd a v) ?_ (fun u hu => hl u (List.mem_cons_of_mem v hu))
    have hv := hl v (List.mem_cons_self v vs)
    simp [vecAdd, List.length_zipWith, ha, hv]

/-- A `vecAdd`-fold from `a` equals `a` plus the fold from zero, for
length-`n` vectors. -/
theorem foldl_vecAdd_shift (n : Nat) : ∀ l : List Vec,
    (∀ v ∈ l, v.length = n) → ∀ a : Vec, a.length = n →
      l.foldl vecAdd a =
        vecAdd a (l.foldl vecAdd (List.replicate n 0)) := by
  intro l
  induction l with
  | nil =>
    intro _ a ha
    exact (vecAdd_replicate_right a n ha).symm
  | cons v vs ih =>
    intro hl a ha
    have hv := hl v (List.mem_cons_self v vs)
    have hl' := fun u hu => hl u (List.mem_cons_of_mem v hu)
    have hlen : (vecAdd a v).length = n := by
      simp [vecAdd, List.length_zipWith, ha, hv]
    simp only [List.foldl_cons]
    rw [vecAdd_replicate_left v n hv, ih hl' (vecAdd a v) hlen, ih hl' v hv]
    exact vecAdd_assoc a v _

/-- The declared "sum" distributed reduction: elementwise sum of the
per-worker accumulator vectors. -/
def sumReduce (n_tasks : Nat) (vs : List Vec) : Vec :=
  vs.foldl vecAdd (List.replicate n_tasks 0)

/-- Summing per-list `vecAdd`-folds equals one fold over the concatenation. -/
theorem sumReduce_of_folds (n : Nat) : ∀ dss : List (List Vec),
    (∀ v ∈ dss.flatten, v.length = n) →
    sumReduce n (dss.map (fun ds => ds.foldl vecAdd (List.replicate n 0))) =
      dss.flatten.foldl vecAdd (List.replicate n 0) := by
  intro dss
  induction dss with
  | nil => intro _; rfl
  | cons ds dss ih =>
    intro h
    have hds : ∀ v ∈ ds, v.length = n := fun v hv =>
      h v (List.mem_flatten.mpr ⟨ds, List.mem_cons_self _ _, hv⟩)
    have hjoin : ∀ v ∈ dss.flatten, v.length = n := by
      intro v hv
      rcases List.mem_flatten.mp hv with ⟨l, hl, hvl⟩
      exact h v (List.mem_flatten.mpr ⟨l, List.mem_cons_of_mem ds hl, hvl⟩)
    have hSds : (ds.foldl vecAdd (List.replicate n 0)).length = n :=
      foldl_vecAdd_length n ds _ (by simp) hds
    have hSmap : ∀ u ∈ dss.map (fun ds => ds.foldl vecAdd (List.replicate n 0)),
        u.length = n := by
      intro u hu
      rcases List.mem_map.mp hu with ⟨ds', hds', hue⟩
      subst hue
      exact foldl_vecAdd_length n ds' _ (by simp)
        (fun v hv => hjoin v (List.mem_flatten.mpr ⟨ds', hds', hv⟩))
    show (List.map _ (ds :: dss)).foldl vecAdd (List.replicate n 0) = _
    simp only [List.map_cons, List.foldl_cons, List.flatten_cons,
      List.foldl_append]
    rw [vecAdd_replicate_left _ n hSds,
      foldl_vecAdd_shift n _ hSmap _ hSds,
      foldl_vecAdd_shift n dss.flatten hjoin _ hSds]
    exact congrArg (vecAdd _) (ih hjoin)

/-- The per-batch true-positive delta added by one `update`. -/
def batchTpDelta (t : ℚ) (b : Batch) : Vec :=
  match b.predictions with
  | none => []
  | some p => (get_recall_states b.labels p b.weights t).true_pos_sum

/-- The per-batch false-negative delta added by one `update`. -/
def batchFnDelta (t : ℚ) (b : Batch) : Vec :=
  match b.predictions with
  | none => []
  | some p => (get_recall_states b.labels p b.weights t).false_neg_sum

/-- A batch shaped `[n_tasks, batch_size]` as the interface declares:
predictions present with `n` task rows, labels with `n` task rows, weights
(when provided) with `n` task rows. -/
def WellShapedBatch (n : Nat) (b : Batch) : Prop :=
  (∃ p, b.predictions = some p ∧ p.length = n) ∧
  b.labels.length = n ∧
  (∀ w, b.weights = some w → w.length = n)

/-- A well-shaped batch has predictions. -/
theorem wellShaped_predictions {n : Nat} {b : Batch}
    (hb : WellShapedBatch n b) : b.predictions ≠ none := by
  obtain ⟨⟨p, hp, _⟩, _, _⟩ := hb
  rw [hp]
  simp

/-- The true-positive delta of a well-shaped batch has one entry per task. -/
theorem batchTpDelta_length (n : Nat) (t : ℚ) (b : Batch)
    (hb : WellShapedBatch n b) : (batchTpDelta t b).length = n := by
  obtain ⟨po, lb, wo⟩ := b
  obtain ⟨⟨p, hp, hpl⟩, hll, hwl⟩ := hb
  dsimp only at hp hll hwl
  subst hp
  cases wo with
  | none =>
    show (compute_true_pos_sum lb p (onesLike p) t).length = n
    rw [compute_true_pos_sum_length]
    have hol : (onesLike p).length = p.length := by simp [onesLike]
    omega
  | some w =>
    have hw := hwl w rfl
    show (compute_true_pos_sum lb p w t).length = n
    rw [compute_true_pos_sum_length]
    omega

/-- The false-negative delta of a well-shaped batch has one entry per task. -/
theorem batchFnDelta_length (n : Nat) (t : ℚ) (b : Batch)
    (hb : WellShapedBatch n b) : (batchFnDelta t b).length = n := by
  obtain ⟨po, lb, wo⟩ := b
  obtain ⟨⟨p, hp, hpl⟩, hll, hwl⟩ := hb
  dsimp only at hp hll hwl
  subst hp
  cases wo with
  | none =>
    show (compute_false_neg_sum lb p (onesLike p) t).length = n
    rw [compute_false_neg_sum_length]
    have hol : (onesLike p).length = p.length := by simp [onesLike]
    omega
  | some w =>
    have hw := hwl w rfl
    show (compute_false_neg_sum lb p w t).length = n
    rw [compute_false_neg_sum_length]
    omega

/-- `update` keeps the configured threshold. -/
theorem applyBatch_threshold (s : RecallState) (b : Batch) :
    (applyBatch s b).threshold = s.threshold := by
  obtain ⟨po, lb, wo⟩ := b
  cases po with
  | none => rfl
  | some p => rfl

/-- One successful `update` adds exactly the per-batch delta to
`true_pos_sum`. -/
theorem applyBatch_true_pos (s : RecallState) (b : Batch)
    (hb : b.predictions ≠ none) :
    (applyBatch s b).true_pos_sum =
      vecAdd s.true_pos_sum (batchTpDelta s.threshold b) := by
  obtain ⟨po, lb, wo⟩ := b
  cases po with
  | none => exact absurd rfl hb
  | some p => rfl

/-- One successful `update` adds exactly the per-batch delta to
`false_neg_sum`. -/
theorem applyBatch_false_neg (s : RecallState) (b : Batch)
    (hb : b.predictions ≠ none) :
    (applyBatch s b).false_neg_sum =
      vecAdd s.false_neg_sum (batchFnDelta s.threshold b) := by
  obtain ⟨po, lb, wo⟩ := b
  cases po with
  | none => exact absurd rfl hb
  | some p => rfl

/-- The lifetime `true_pos_sum` after a stream of successful updates is the
`vecAdd`-fold of the per-batch deltas. -/
theorem runUpdates_true_pos (bs : List Batch) : ∀ s : RecallState,
    (∀ b ∈ bs, b.predictions ≠ none) →
    (runUpdates s bs).true_pos_sum =
      (bs.map (batchTpDelta s.threshold)).foldl vecAdd s.true_pos_sum := by
  induction bs with
  | nil => intro s _; rfl
  | cons b bs ih =>
    intro s hb
    show (runUpdates (applyBatch s b) bs).true_pos_sum = _
    rw [ih (applyBatch s b) (fun b' h' => hb b' (List.mem_cons_of_mem b h')),
      applyBatch_threshold, applyBatch_true_pos s b (hb b (List.mem_cons_self b bs))]
    simp only [List.map_cons, List.foldl_cons]

/-- The lifetime `false_neg_sum` after a stream of successful updates is the
`vecAdd`-fold of the per-batch deltas. -/
theorem runUpdates_false_neg (bs : List Batch) : ∀ s : RecallState,
    (∀ b ∈ bs, b.predictions ≠ none) →
    (runUpdates s bs).false_neg_sum =
      (bs.map (batchFnDelta s.threshold)).foldl vecAdd s.false_neg_sum := by
  induction bs with
  | nil => intro s _; rfl
  | cons b bs ih =>
    intro s hb
    show (runUpdates (applyBatch s b) bs).false_neg_sum = _
    rw [ih (applyBatch s b) (fun b' h' => hb b' (List.mem_cons_of_mem b h')),
      applyBatch_threshold, applyBatch_false_neg s b (hb b (List.mem_cons_self b bs))]
    simp only [List.map_cons, List.foldl_cons]

/-- C7: summing the per-worker lifetime accumulators (the declared "sum"
reduction) over any partition of the batch stream gives the same LIFETIME
accumulators as one worker that processed the whole concatenated stream. -/
theorem claim7_worker_reduction_eq_concat (n ws : Nat) (t : ℚ)
    (workers : List (List Batch))
    (h : ∀ b ∈ workers.flatten, WellShapedBatch n b) :
    (sumReduce n (workers.map
        (fun w => (runUpdates (initState n ws t) w).true_pos_sum)) =
      (runUpdates (initState n ws t) workers.flatten).true_pos_sum) ∧
    (sumReduce n (workers.map
        (fun w => (runUpdates (initState n ws t) w).false_neg_sum)) =
      (runUpdates (initState n ws t) workers.flatten).false_neg_sum) := by
  have hsome : ∀ b ∈ workers.flatten, b.predictions ≠ none :=
    fun b hb => wellShaped_predictions (h b hb)
  constructor
  · have hmap : workers.map
        (fun w => (runUpdates (initState n ws t) w).true_pos_sum) =
        workers.map (fun w =>
          (w.map (batchTpDelta t)).foldl vecAdd (List.replicate n 0)) := by
      apply List.map_congr_left
      intro w hw
      rw [runUpdates_true_pos w (initState n ws t)
        (fun b hb => hsome b (List.mem_flatten.mpr ⟨w, hw, hb⟩))]
      rfl
    rw [hmap, runUpdates_true_pos workers.flatten (initState n ws t) hsome]
    have hmm : workers.map (fun w =>
        (w.map (batchTpDelta t)).foldl vecAdd (List.replicate n 0)) =
        (workers.map (fun w => w.map (batchTpDelta t))).map
          (fun ds => ds.foldl vecAdd (List.replicate n 0)) := by
      rw [List.map_map]
      rfl
    rw [hmm, sumReduce_of_folds n _ ?hlen]
    · rw [← List.map_flatten]
      rfl
    case hlen =>
      intro v hv
      rcases List.mem_flatten.mp hv with ⟨u, hu, hvu⟩
      rcases List.mem_map.mp hu with ⟨w, hw, hue⟩
      subst hue
      rcases List.mem_map.mp hvu with ⟨b, hbw, hve⟩
      subst hve
      exact batchTpDelta_length n t b
        (h b (List.mem_flatten.mpr ⟨w, hw, hbw⟩))
  · have hmap : workers.map
        (fun w => (runUpdates (initState n ws t) w).false_neg_sum) =
        workers.map (fun w =>
          (w.map (batchFnDelta t)).foldl vecAdd (List.replicate n 0)) := by
      apply List.map_congr_left
      intro w hw
      rw [runUpdates_false_neg w (initState n ws t)
        (fun b hb => hsome b (List.mem_flatten.mpr ⟨w, hw, hb⟩))]
      rfl
    rw [hmap, runUpdates_false_neg workers.flatten (initState n ws t) hsome]
    have hmm : workers.map (fun w =>
        (w.map (batchFnDelta t)).foldl vecAdd (List.replicate n 0)) =
        (workers.map (fun w => w.map (batchFnDelta t))).map
          (fun ds => ds.foldl vecAdd (List.replicate n 0)) := by
      rw [List.map_map]
      rfl
    rw [hmm, sumReduce_of_folds n _ ?hlen2]
    · rw [← List.map_flatten]
      rfl
    case hlen2 =>
      intro v hv
      rcases List.mem_flatten.mp hv with ⟨u, hu, hvu⟩
      rcases List.mem_map.mp hu with ⟨w, hw, hue⟩
      subst hue
      rcases List.mem_map.mp hvu with ⟨b, hbw, hve⟩
      subst hve
      exact batchFnDelta_length n t b
        (h b (List.mem_flatten.mpr ⟨w, hw, hbw⟩))

/-- Witness for C7 at a concrete two-worker partition. -/
theorem claim7_witness :
    (∀ b ∈ ([[Batch.mk (some [[(1 : ℚ), 0]]) [[(1 : ℚ), 0]] none],
        [Batch.mk (some [[(0 : ℚ), 2]]) [[(0 : ℚ), 1]] none]] :
        List (List Batch)).flatten, WellShapedBatch 1 b) ∧
    ((sumReduce 1 (([[Batch.mk (some [[(1 : ℚ), 0]]) [[(1 : ℚ), 0]] none],
        [Batch.mk (some [[(0 : ℚ), 2]]) [[(0 : ℚ), 1]] none]] :
        List (List Batch)).map
        (fun w => (runUpdates (initState 1 10 1) w).true_pos_sum)) =
      (runUpdates (initState 1 10 1)
        ([[Batch.mk (some [[(1 : ℚ), 0]]) [[(1 : ℚ), 0]] none],
          [Batch.mk (some [[(0 : ℚ), 2]]) [[(0 : ℚ), 1]] none]] :
          List (List Batch)).flatten).true_pos_sum) ∧
     (sumReduce 1 (([[Batch.mk (some [[(1 : ℚ), 0]]) [[(1 : ℚ), 0]] none],
        [Batch.mk (some [[(0 : ℚ), 2]]) [[(0 : ℚ), 1]] none]] :
        List (List Batch)).map
        (fun w => (runUpdates (initState 1 10 1) w).false_neg_sum)) =
      (runUpdates (initState 1 10 1)
        ([[Batch.mk (some [[(1 : ℚ), 0]]) [[(1 : ℚ), 0]] none],
          [Batch.mk (some [[(0 : ℚ), 2]]) [[(0 : ℚ), 1]] none]] :
          List (List Batch)).flatten).false_neg_sum)) :=
  have hws : ∀ b ∈ ([[Batch.mk (some [[(1 : ℚ), 0]]) [[(1 : ℚ), 0]] none],
      [Batch.mk (some [[(0 : ℚ), 2]]) [[(0 : ℚ), 1]] none]] :
      List (List Batch)).flatten, WellShapedBatch 1 b := by
    intro b hb
    have hb' : b ∈ [Batch.mk (some [[(1 : ℚ), 0]]) [[(1 : ℚ), 0]] none,
        Batch.mk (some [[(0 : ℚ), 2]]) [[(0 : ℚ), 1]] none] := hb
    rcases List.mem_cons.mp hb' with he | he
    · rw [he]
      exact ⟨⟨[[(1 : ℚ), 0]], rfl, rfl⟩, rfl, fun w hw => nomatch hw⟩
    · rw [List.mem_singleton.mp he]
      exact ⟨⟨[[(0 : ℚ), 2]], rfl, rfl⟩, rfl, fun w hw => nomatch hw⟩
  ⟨hws, claim7_worker_reduction_eq_concat 1 10 1 _ hws⟩
